import Mathlib

/-!
A shallow embedding of the `temporal` bitemporal value-history engine
(`temporal/effective.py`, `temporal/history.py`, `temporal/perspective.py`)
together with proofs checking the natural-language specification against it.

Time points are modelled as natural numbers of whole seconds since the
minimum representable instant (`datetime.min`, second granularity); the
maximum representable instant (`datetime.max` truncated to seconds) is the
constant `TPmax`.  The sentinels MIN and MAX of the source are therefore `0`
and `TPmax`.
-/

namespace Temporal

/-- A `TimePoint`: whole seconds since the minimum representable instant. -/
abbrev TP := Nat

/-- Whole seconds between `datetime.min` and `datetime.max` truncated to
second granularity: the MAX sentinel.  (9999 years worth of seconds.) -/
def TPmax : Nat := 315537897599

/-- Modelled from the spec: the error taxonomy of `temporal.errors` (the
module is imported by the sources but its file is not under `src/`; the four
typed error classes are named there and in the spec), plus `overflow` for
Python's `OverflowError` raised by out-of-range date arithmetic, which is not
one of the library's typed errors. -/
inductive Err where
  | missingValue
  | malformedHistory
  | malformedPerspective
  | invalidRange
  | overflow
deriving DecidableEq, Repr

/-- Embeds `TimePoint.is_min`: equality with the MIN sentinel. -/
def TP.is_min (t : TP) : Bool := t = 0

/-- Embeds `TimePoint.is_max`: equality with the MAX sentinel. -/
def TP.is_max (t : TP) : Bool := t = TPmax

/-- Embeds `TimePoint.next`: one second later.  Date arithmetic overflows when
stepping past the maximum representable instant (`datetime.max`); the only
representable point where that happens is the MAX sentinel itself. -/
def TP.next (t : TP) : Except Err TP :=
  if t = TPmax then .error .overflow else .ok (t + 1)

/-- Embeds `TimePoint.prev`: one second earlier.  Date arithmetic overflows when
stepping before the minimum representable instant (`datetime.min`), i.e. on
the MIN sentinel. -/
def TP.prev (t : TP) : Except Err TP :=
  if t = 0 then .error .overflow else .ok (t - 1)

/-- Embeds `TimePoint.add_days`: step forward by whole days (86400 seconds each). -/
def TP.add_days (t : TP) (days : Nat) : TP := t + 86400 * days

/-- Embeds `TimeRange`: a closed interval of time points.  The source's field `end`
is spelled `endp` (`end` is reserved in Lean).  The constructor invariant
`start <= end` of the source is the separate predicate `TimeRange.validB`. -/
structure TimeRange where
  start : TP
  endp : TP
deriving DecidableEq, Repr

namespace TimeRange

/-- The `__post_init__` check of `TimeRange`: `end < start` is rejected. -/
def validB (r : TimeRange) : Bool := r.start ≤ r.endp

/-- Embeds `__contains__` on a `TimePoint`: `start <= point <= end`. -/
def containsB (r : TimeRange) (t : TP) : Bool := r.start ≤ t && t ≤ r.endp

/-- Embeds `included_in`: both bounds within the other range. -/
def included_in (r other : TimeRange) : Bool :=
  other.start ≤ r.start && r.endp ≤ other.endp

/-- Embeds `overlap_with`: the closed intervals share at least one point. -/
def overlap_withB (r other : TimeRange) : Bool :=
  r.start ≤ other.endp && r.endp ≥ other.start

/-- Embeds `adjacent_to`: disjoint and exactly one second apart.  The source calls
`end.next()` only under `self < other` (strict order of ranges), where the
stepped point is below the other range's start, hence representable; the
embedding uses the total successor accordingly. -/
def adjacent_toB (r other : TimeRange) : Bool :=
  if r.endp < other.start then r.endp + 1 = other.start
  else if other.endp < r.start then other.endp + 1 = r.start
  else false

/-- Embeds `union` (the source asserts adjacency or overlap before building it). -/
def union (r other : TimeRange) : TimeRange :=
  ⟨min r.start other.start, max r.endp other.endp⟩

/-- Embeds `intersection` (the source asserts overlap before building it). -/
def intersection (r other : TimeRange) : TimeRange :=
  ⟨max r.start other.start, min r.endp other.endp⟩

end TimeRange

/-- Insert a point into an ascending duplicate-free list, keeping it
ascending and duplicate-free. -/
def insertSortedNodup (x : TP) : List TP → List TP
  | [] => [x]
  | y :: ys =>
    if x < y then x :: y :: ys
    else if x = y then y :: ys
    else y :: insertSortedNodup x ys

/-- Embeds `sorted(set(xs))` of the source: the ascending duplicate-free list of the
elements of `xs`. -/
def sortedNodup (xs : List TP) : List TP := xs.foldr insertSortedNodup []

namespace TimeRange

/-- The boundary points contributed by `others` that fall inside `self`,
ascending and without duplicates: `points_of_interest` of `subtract_all`. -/
def pointsOfInterest (self : TimeRange) (others : List TimeRange) : List TP :=
  sortedNodup
    ((others.flatMap fun o => [o.start, o.endp]).filter fun t => self.containsB t)

/-- One iteration of the sweep loop of `subtract_all`, on the state
`(in_range, results)`.  The source computes `time_point.prev()` only under
`not time_point.is_min()` and `time_point.next()` only under
`not time_point.is_max()`; this total version steps with `t - 1` / `t + 1`
directly (the guarded instrumented version is `sweepStepE` below). -/
def sweepStep (others : List TimeRange) (st : Option TP × List TimeRange)
    (t : TP) : Option TP × List TimeRange :=
  match st with
  | (some s, results) =>
    if !t.is_min then
      let p := t - 1
      if !(others.any fun o => o.containsB p) then (none, results ++ [⟨s, p⟩])
      else (some s, results)
    else if !t.is_max then
      let n := t + 1
      if !(others.any fun o => o.containsB n) then (some n, results)
      else (some s, results)
    else (some s, results)
  | (none, results) =>
    if !t.is_max then
      let n := t + 1
      if !(others.any fun o => o.containsB n) then (some n, results)
      else (none, results)
    else (none, results)

/-- The code after the loop of `subtract_all`: when a run is still open and
`self.end` is not covered by any of `others`, emit the final run up to
`self.end` (no stepping is involved here). -/
def sweepFinish (self : TimeRange) (others : List TimeRange)
    (st : Option TP × List TimeRange) : List TimeRange :=
  match st with
  | (some s, results) =>
    if !(others.any fun o => o.containsB self.endp) then results ++ [⟨s, self.endp⟩]
    else results
  | (none, results) => results

/-- Embeds `TimeRange.subtract_all`: sweep over the sorted boundary points, emitting
the uncovered runs the source's loop emits. -/
def subtract_all (self : TimeRange) (others : List TimeRange) :
    List TimeRange :=
  let pts := self.pointsOfInterest others
  let init : Option TP := if pts.contains self.start then none else some self.start
  sweepFinish self others (pts.foldl (sweepStep others) (init, []))

/-- One iteration of the sweep loop with the stepping functions `TP.prev` /
`TP.next` taken as the fallible date arithmetic of the source: an `.error`
outcome would mean the loop evaluated `prev` on MIN or `next` on MAX. -/
def sweepStepE (others : List TimeRange) (st : Option TP × List TimeRange)
    (t : TP) : Except Err (Option TP × List TimeRange) :=
  match st with
  | (some s, results) =>
    if !t.is_min then
      match t.prev with
      | .error e => .error e
      | .ok p =>
        if !(others.any fun o => o.containsB p) then .ok (none, results ++ [⟨s, p⟩])
        else .ok (some s, results)
    else if !t.is_max then
      match t.next with
      | .error e => .error e
      | .ok n =>
        if !(others.any fun o => o.containsB n) then .ok (some n, results)
        else .ok (some s, results)
    else .ok (some s, results)
  | (none, results) =>
    if !t.is_max then
      match t.next with
      | .error e => .error e
      | .ok n =>
        if !(others.any fun o => o.containsB n) then .ok (some n, results)
        else .ok (none, results)
    else .ok (none, results)

/-- Embeds `subtract_all` with the fallible stepping functions threaded through
(only the loop steps; the final section after the loop does no stepping). -/
def subtract_allE (self : TimeRange) (others : List TimeRange) :
    Except Err (List TimeRange) := do
  let pts := self.pointsOfInterest others
  let init : Option TP := if pts.contains self.start then none else some self.start
  let st ← pts.foldlM (sweepStepE others) (init, [])
  pure (sweepFinish self others st)

end TimeRange

/-- Embeds `HistoryEntry`: one immutable versioned fact.  `_value` is `Option T`
because the Python field is nullable (`forget` stores `None` there); the
retraction marker is the separate `_is_forgotten` flag, exactly as in the
source. -/
structure HistoryEntry (T : Type) where
  effectivity : TimeRange
  settled_at : TP
  version : Nat
  _value : Option T
  _is_forgotten : Bool := false
deriving DecidableEq, Repr

namespace HistoryEntry

/-- Embeds `HistoryEntry.is_empty`. -/
def is_empty (e : HistoryEntry T) : Bool := e._is_forgotten

/-- Embeds `HistoryEntry.get_value`: raises missing-value on a forgotten entry. -/
def get_value (e : HistoryEntry T) : Except Err (Option T) :=
  if e.is_empty then .error .missingValue else .ok e._value

end HistoryEntry

/-- The constructor loop of `History.__init__` over consecutive entries:
rejects a decreasing `settled_at` or a version that is not the predecessor's
plus one. -/
def checkHistoryEntries : List (HistoryEntry T) → Except Err Unit
  | p :: n :: rest =>
    if p.settled_at > n.settled_at then .error .malformedHistory
    else if n.version ≠ p.version + 1 then .error .malformedHistory
    else checkHistoryEntries (n :: rest)
  | _ => .ok ()

/-- Embeds `History`: the per-entity append-only log.  The injected `on_record`
callback is side-effecting code; the embedding keeps only whether one was
supplied (`has_on_record`), and `record`/`forget` below return, next to the
updated history, the list of entries the callback was invoked with. -/
structure History (T : Type) where
  id : String
  _entries : List (HistoryEntry T)
  has_on_record : Bool := false
deriving Repr

namespace History

/-- Embeds `History.__init__` from existing entries: store them, then verify the
settlement order and version sequence. -/
def init (id : String) (entries : List (HistoryEntry T))
    (has_on_record : Bool := false) : Except Err (History T) := do
  let _ ← checkHistoryEntries entries
  pure { id := id, _entries := entries, has_on_record := has_on_record }

/-- Embeds `History._get_next_version`. -/
def _get_next_version (h : History T) : Nat :=
  match h._entries.getLast? with
  | some e => e.version + 1
  | none => 0

/-- Embeds `History.record`.  `now` stands for `TimePoint.now()`, used when no
explicit `_settled_at` is supplied.  Returns the updated history paired with
the entries passed to the `on_record` callback (its side effect, made
explicit). -/
def record (h : History T) (value : T) (effectivity : TimeRange)
    (_settled_at : Option TP) (now : TP) :
    History T × List (HistoryEntry T) :=
  let new_entry : HistoryEntry T :=
    { _value := some value
      effectivity := effectivity
      settled_at := _settled_at.getD now
      version := h._get_next_version }
  ({ h with _entries := h._entries ++ [new_entry] },
   if h.has_on_record then [new_entry] else [])

/-- Embeds `History.forget`: appends a retraction entry.  The source does not invoke
the `on_record` callback here, so the invocation list is empty. -/
def forget (h : History T) (effectivity : TimeRange)
    (_settled_at : Option TP) (now : TP) :
    History T × List (HistoryEntry T) :=
  let new_entry : HistoryEntry T :=
    { effectivity := effectivity
      settled_at := _settled_at.getD now
      version := h._get_next_version
      _value := none
      _is_forgotten := true }
  ({ h with _entries := h._entries ++ [new_entry] }, [])

/-- Embeds `History._entries_settled_at`: the entries from most- to least-recently
appended, skipping those settled after the cutoff.  (The source defaults the
cutoff to `TimePoint.now()`; the embedding takes it explicitly.) -/
def _entries_settled_at (h : History T) (settled_at : TP) :
    List (HistoryEntry T) :=
  h._entries.reverse.filter fun e => decide (e.settled_at ≤ settled_at)

/-- Embeds `History.fetch`: the first entry, in `_entries_settled_at` order, whose
effectivity contains `at_` wins; its `get_value` is returned (missing-value
on a retraction); missing-value when no entry matches. -/
def fetch (h : History T) (at_ : TP) (settled_at : TP) : Except Err (Option T) :=
  match (h._entries_settled_at settled_at).find?
      (fun e => e.effectivity.containsB at_) with
  | some e => e.get_value
  | none => .error .missingValue

end History

/-- Embeds `PerspectiveEntry`: a resolved sub-range with its value. -/
structure PerspectiveEntry (V : Type) where
  effectivity : TimeRange
  value : V
deriving DecidableEq, Repr

/-- The constructor loop of `Perspective.__init__` over consecutive entries:
rejects a decreasing `effectivity.start` and rejects
`previous.effectivity.end > next.effectivity.start` (strict). -/
def checkPerspectiveEntries : List (PerspectiveEntry V) → Except Err Unit
  | p :: n :: rest =>
    if p.effectivity.start > n.effectivity.start then .error .malformedPerspective
    else if p.effectivity.endp > n.effectivity.start then .error .malformedPerspective
    else checkPerspectiveEntries (n :: rest)
  | _ => .ok ()

/-- Embeds `Perspective._compact_entries`: left-to-right pass merging an entry into
the previously kept one when they are adjacent and carry the same value. -/
def compactEntries [DecidableEq V] (entries : List (PerspectiveEntry V)) :
    List (PerspectiveEntry V) :=
  entries.foldl
    (fun compacted entry =>
      match compacted.getLast? with
      | some last =>
        if last.effectivity.adjacent_toB entry.effectivity
            && decide (last.value = entry.value) then
          compacted.dropLast
            ++ [⟨last.effectivity.union entry.effectivity, entry.value⟩]
        else compacted ++ [entry]
      | none => [entry])
    []

/-- Embeds `Perspective`: a non-overlapping start-ordered compacted timeline. -/
structure Perspective (V : Type) where
  settled_at : TP
  _entries : List (PerspectiveEntry V)
deriving DecidableEq, Repr

namespace Perspective

/-- Embeds `Perspective.__init__`: store, verify order and non-overlap of the given
entries, then compact them. -/
def init [DecidableEq V] (settled_at : TP) (entries : List (PerspectiveEntry V)) :
    Except Err (Perspective V) := do
  let _ ← checkPerspectiveEntries entries
  pure { settled_at := settled_at, _entries := compactEntries entries }

/-- Embeds `Perspective.fetch`: scan from the end for an entry containing `at_`. -/
def fetch (p : Perspective V) (at_ : TP) : Except Err V :=
  match p._entries.reverse.find? (fun e => e.effectivity.containsB at_) with
  | some e => .ok e.value
  | none => .error .missingValue

end Perspective

/-- Insert into a list sorted by `effectivity.start`, before the first entry
with a key not smaller: together with `sortByStart` this reproduces the
observable behavior of Python's stable `sorted(..., key=start)`. -/
def insertByStart (e : PerspectiveEntry V) :
    List (PerspectiveEntry V) → List (PerspectiveEntry V)
  | [] => [e]
  | x :: xs =>
    if e.effectivity.start ≤ x.effectivity.start then e :: x :: xs
    else x :: insertByStart e xs

/-- Stable sort by `effectivity.start`. -/
def sortByStart (l : List (PerspectiveEntry V)) : List (PerspectiveEntry V) :=
  l.foldr insertByStart []

namespace History

/-- Embeds `History.get_perspective`: assign each entry (most recently settled
first) the sub-ranges of its effectivity not yet claimed, where the claimed
ranges are the sub-ranges already assigned (to any entry, retractions
included); then drop retraction projections, sort by start and build the
`Perspective`. -/
def get_perspective [DecidableEq T] (h : History T) (settled_at : TP) :
    Except Err (Perspective (Option T)) :=
  let projections : List (TimeRange × Option T × Bool) :=
    (h._entries_settled_at settled_at).foldl
      (fun projections entry =>
        let known_time_ranges := projections.map (fun p => p.1)
        projections ++
          (entry.effectivity.subtract_all known_time_ranges).map
            (fun tr => (tr, entry._value, entry.is_empty)))
      []
  Perspective.init settled_at
    (sortByStart
      ((projections.filter (fun p => !p.2.2)).map fun p => ⟨p.1, p.2.1⟩))

/-- Modelled from the spec: the perspective-construction algorithm of §4.3,
which differs from the source in one step — after computing an entry's
surviving sub-ranges via `subtract_all`, it adds the entry's FULL effectivity
to the claimed set (the source instead claims only the surviving
sub-ranges). -/
def get_perspective_specAlg [DecidableEq T] (h : History T) (settled_at : TP) :
    Except Err (Perspective (Option T)) :=
  let st : List TimeRange × List (TimeRange × Option T × Bool) :=
    (h._entries_settled_at settled_at).foldl
      (fun (st : List TimeRange × List (TimeRange × Option T × Bool)) entry =>
        (st.1 ++ [entry.effectivity],
         st.2 ++
           (entry.effectivity.subtract_all st.1).map
             (fun tr => (tr, entry._value, entry.is_empty))))
      ([], [])
  Perspective.init settled_at
    (sortByStart
      ((st.2.filter (fun p => !p.2.2)).map fun p => ⟨p.1, p.2.1⟩))

end History

/-! ### Concrete inputs used by the theorems below -/

/-- Valid-time origin of the end-to-end scenario (an arbitrary instant well
inside the representable span, standing for the test's `now`). -/
def scenarioT0 : TP := 1000

/-- The end-to-end scenario history of the spec: on an empty history, record
"hey" over `[T0, MAX]`, "ho" over `[T0+2d, MAX]`, "hop" over `[T0+2d, MAX]`
and "hop" over `[T0+4d, MAX]`, settled at 10 < 20 < 30 < 40. -/
def scenarioHistory : History String :=
  let h0 : History String := { id := "subscription", _entries := [] }
  let h1 := (h0.record "hey" ⟨scenarioT0, TPmax⟩ (some 10) 10).1
  let h2 := (h1.record "ho" ⟨scenarioT0.add_days 2, TPmax⟩ (some 20) 20).1
  let h3 := (h2.record "hop" ⟨scenarioT0.add_days 2, TPmax⟩ (some 30) 30).1
  (h3.record "hop" ⟨scenarioT0.add_days 4, TPmax⟩ (some 40) 40).1

/-- A well-formed three-entry history on which the implemented perspective
algorithm and the spec's §4.3 algorithm disagree: the top-priority entry is
the single-point range `[5,5]`, which triggers the boundary-collapse defect
of `subtract_all`. -/
def divergenceHistory : History String :=
  { id := "g"
    _entries :=
      [ ⟨⟨0, 10⟩, 1, 0, some "c", false⟩,
        ⟨⟨0, 10⟩, 2, 1, some "b", false⟩,
        ⟨⟨5, 5⟩, 3, 2, some "a", false⟩ ] }

/-- A one-entry history (settled at 10) used to show that `record` accepts an
explicit `settled_at` earlier than the last entry's settlement. -/
def lateHistory : History Nat :=
  { id := "k", _entries := [⟨⟨0, 10⟩, 10, 0, some 1, false⟩] }

/-- An empty history constructed with an `on_record` callback. -/
def cbHistory : History Nat := { id := "cb", _entries := [], has_on_record := true }

/-- The pairwise condition the `History` constructor enforces on consecutive
entries. -/
def historyPairOk (p n : HistoryEntry T) : Prop :=
  p.settled_at ≤ n.settled_at ∧ n.version = p.version + 1

/-- The pairwise condition the `Perspective` constructor enforces on
consecutive entries: non-decreasing starts, and the previous end not
STRICTLY past the next start. -/
def perspectivePairOk (p n : PerspectiveEntry V) : Prop :=
  p.effectivity.start ≤ n.effectivity.start ∧ p.effectivity.endp ≤ n.effectivity.start

/-- The entries of a history that are settled at or before the cutoff and
whose effectivity contains the queried instant, in log (append) order. -/
def fetchCandidates (h : History T) (at_ cutoff : TP) : List (HistoryEntry T) :=
  h._entries.filter fun e =>
    decide (e.settled_at ≤ cutoff) && e.effectivity.containsB at_

/-! ### C3 — end-to-end scenario -/

/-- Claim C3: in the end-to-end scenario the four entries get versions
0, 1, 2, 3; `fetch T0` returns "hey"; `fetch (T0+2d)` returns "hop"; and the
perspective as of a cutoff after all four settlements has exactly the two
entries `[T0, T0+2d-1] -> "hey"` and `[T0+2d, MAX] -> "hop"` (the two
adjacent equal-valued "hop" projections compacted into one).  Values appear
as `some _` because the source's value field is nullable. -/
theorem History.end_to_end_scenario :
    scenarioHistory._entries.map (fun e => e.version) = [0, 1, 2, 3]
    ∧ scenarioHistory.fetch scenarioT0 100 = .ok (some "hey")
    ∧ scenarioHistory.fetch (scenarioT0.add_days 2) 100 = .ok (some "hop")
    ∧ scenarioHistory.get_perspective 100 =
        .ok { settled_at := 100
              _entries :=
                [ ⟨⟨scenarioT0, scenarioT0.add_days 2 - 1⟩, some "hey"⟩,
                  ⟨⟨scenarioT0.add_days 2, TPmax⟩, some "hop"⟩ ] } :=
  ⟨rfl, rfl, rfl, rfl⟩

/-! ### C10 — stepping past a sentinel overflows -/

/-- Claim C10: `next` on the MAX sentinel and `prev` on the MIN sentinel fail
with the overflow error of the underlying date arithmetic, which is none of
the library's typed errors; away from the sentinels the step succeeds, so the
sentinels are not absorbing and callers must guard with `is_min`/`is_max`. -/
theorem TP.sentinel_step_overflows :
    TP.next TPmax = .error .overflow
    ∧ TP.prev 0 = .error .overflow
    ∧ (∀ t : TP, t ≠ TPmax → TP.next t = .ok (t + 1))
    ∧ (∀ t : TP, t ≠ 0 → TP.prev t = .ok (t - 1))
    ∧ Err.overflow ≠ Err.missingValue
    ∧ Err.overflow ≠ Err.malformedHistory
    ∧ Err.overflow ≠ Err.malformedPerspective
    ∧ Err.overflow ≠ Err.invalidRange := by
  refine ⟨by simp [TP.next], rfl, fun t ht => by simp [TP.next, ht],
    fun t ht => by simp [TP.prev, ht], by decide, by decide, by decide, by decide⟩

/-- Witness for C10 at a concrete non-sentinel point. -/
theorem TP.sentinel_step_overflows_witness :
    (5 : TP) ≠ TPmax ∧ TP.next 5 = .ok 6 :=
  ⟨by decide, TP.sentinel_step_overflows.2.2.1 5 (by decide)⟩

/-! ### C7 — the partition law of `subtract_all` fails -/

/-- Claim C7 (failing): on `self = [0,10]`, `others = [[5,5]]` the code
returns only `[[0,4]]` — the run `[6,10]` is lost, because the two equal
bounds of the single-point range collapse into one point of interest, which
closes the open run without reopening one after it.  Point 7 is in `self`,
in no subtracted range, and in no remainder, so the union of the remainders
plus the subtracted ranges intersected with `self` does not reconstruct
`self`: the partition law of the claim is violated. -/
theorem TimeRange.subtract_all_partition_law_fails :
    TimeRange.subtract_all ⟨0, 10⟩ [⟨5, 5⟩] = [⟨0, 4⟩]
    ∧ (⟨0, 10⟩ : TimeRange).containsB 7 = true
    ∧ (∀ r ∈ TimeRange.subtract_all ⟨0, 10⟩ [⟨5, 5⟩], r.containsB 7 = false)
    ∧ (∀ o ∈ [(⟨5, 5⟩ : TimeRange)], o.containsB 7 = false) := by
  decide

/-! ### C2 — implemented vs specified perspective algorithm -/

/-- Claim C2 (failing): on the well-formed `divergenceHistory` the
implemented `get_perspective` (which claims only the surviving sub-ranges)
and the spec's algorithm (which claims each entry's full effectivity)
disagree: the code lets the lowest-priority value "c" surface on `[6,10]`,
inside the range the mid-priority entry `[0,10] -> "b"` should have claimed,
while the spec's algorithm leaves that range to nobody. -/
theorem History.get_perspective_deviates_from_spec_algorithm :
    checkHistoryEntries divergenceHistory._entries = .ok ()
    ∧ divergenceHistory.get_perspective 10 =
        .ok { settled_at := 10
              _entries := [⟨⟨0, 4⟩, some "b"⟩, ⟨⟨5, 5⟩, some "a"⟩, ⟨⟨6, 10⟩, some "c"⟩] }
    ∧ divergenceHistory.get_perspective_specAlg 10 =
        .ok { settled_at := 10
              _entries := [⟨⟨0, 4⟩, some "b"⟩, ⟨⟨5, 5⟩, some "a"⟩] }
    ∧ ({ settled_at := 10
         _entries := [⟨⟨0, 4⟩, some "b"⟩, ⟨⟨5, 5⟩, some "a"⟩, ⟨⟨6, 10⟩, some "c"⟩] }
          : Perspective (Option String)) ≠
        { settled_at := 10
          _entries := [⟨⟨0, 4⟩, some "b"⟩, ⟨⟨5, 5⟩, some "a"⟩] } :=
  ⟨rfl, rfl, rfl, by decide⟩

/-! ### C4 — `record`/`forget` never validate the append -/

/-- Claim C4 (failing): supplying an explicit `settled_at` earlier than the
last entry's settlement is claimed to fail with malformed-history; in the
source `record` performs no check at all — the append succeeds and the
resulting entry list itself no longer passes the constructor's invariant
check. -/
theorem History.record_accepts_invariant_breaking_append :
    (lateHistory.record 2 ⟨0, 5⟩ (some 5) 99).1._entries.length = 2
    ∧ checkHistoryEntries (lateHistory.record 2 ⟨0, 5⟩ (some 5) 99).1._entries
        = .error .malformedHistory :=
  ⟨rfl, rfl⟩

/-- Claim C4 as amended: `record` and `forget` are unconditional appends.
They never fail — not on overlapping effectivities and not on an explicit
out-of-order `settled_at`; versions are assigned automatically (last + 1, or
0 on an empty log); the structural invariants are enforced only when a
history is constructed from existing entries. -/
theorem History.record_forget_append_unconditionally {T : Type}
    (h : History T) (v : T) (eff : TimeRange) (s : Option TP) (now : TP) :
    (h.record v eff s now).1._entries
      = h._entries ++ [⟨eff, s.getD now, h._get_next_version, some v, false⟩]
    ∧ (h.forget eff s now).1._entries
      = h._entries ++ [⟨eff, s.getD now, h._get_next_version, none, true⟩] :=
  ⟨rfl, rfl⟩

/-! ### C9 — the write-through callback -/

/-- Claim C9 (failing): `forget` is claimed to invoke the `on_record`
callback; in the source only `record` does.  On a history constructed with a
callback, a successful `forget` performs no invocation. -/
theorem History.forget_does_not_notify :
    cbHistory.has_on_record = true
    ∧ (cbHistory.forget ⟨0, 5⟩ (some 3) 9).2 = [] :=
  ⟨rfl, rfl⟩

/-- Claim C9 as amended: when an `on_record` callback is present, every
successful `record` invokes it exactly once, with exactly the newly appended
entry, before returning; `forget` appends its retraction entry but never
invokes the callback. -/
theorem History.record_notifies_forget_does_not {T : Type}
    (h : History T) (v : T) (eff : TimeRange) (s : Option TP) (now : TP) :
    (h.record v eff s now).2
      = (if h.has_on_record then
          [⟨eff, s.getD now, h._get_next_version, some v, false⟩] else [])
    ∧ (h.record v eff s now).1._entries
      = h._entries ++ [⟨eff, s.getD now, h._get_next_version, some v, false⟩]
    ∧ (h.forget eff s now).2 = [] :=
  ⟨rfl, rfl, rfl⟩

/-! ### C6 — the `History` constructor check -/

/-- The constructor loop succeeds exactly when every consecutive pair
satisfies `historyPairOk`. -/
theorem checkHistoryEntries_ok_iff (l : List (HistoryEntry T)) :
    checkHistoryEntries l = .ok () ↔ l.Chain' historyPairOk := by
  induction l with
  | nil => simp [checkHistoryEntries]
  | cons a l ih =>
    cases l with
    | nil => simp [checkHistoryEntries]
    | cons b m =>
      rw [checkHistoryEntries, List.chain'_cons, ← ih, historyPairOk]
      split_ifs with h1 h2
      · simp [Nat.not_le.mpr h1]
      · simp [h2]
      · simp [Nat.le_of_not_lt h1, not_not.mp h2]

/-- Claim C6 as amended: constructing a `History` from existing entries
succeeds if and only if the `settled_at` values are non-decreasing and each
version is its predecessor's plus one — the version of the FIRST entry is
not constrained (in particular it need not be 0). -/
theorem History.init_wellformed_iff (id : String) (l : List (HistoryEntry T)) (cb : Bool) :
    (History.init id l cb).isOk = true ↔
      l.Chain' (fun p n => p.settled_at ≤ n.settled_at ∧ n.version = p.version + 1) := by
  show (History.init id l cb).isOk = true ↔ l.Chain' historyPairOk
  rw [← checkHistoryEntries_ok_iff]
  unfold History.init
  cases hc : checkHistoryEntries l with
  | ok u => cases u; simp [Except.isOk, Except.toBool]
  | error e => simp [Except.isOk, Except.toBool]

/-- Claim C6 (failing half): a single-entry history whose entry carries
version 7 is accepted by the constructor, although the claim demands that
the first version be 0. -/
theorem History.init_accepts_nonzero_first_version :
    History.init "h" [⟨⟨0, 10⟩, 5, 7, some (1 : Nat), false⟩] false
      = .ok { id := "h", _entries := [⟨⟨0, 10⟩, 5, 7, some 1, false⟩] } :=
  rfl

/-! ### C5 — the `Perspective` constructor check -/

/-- The constructor loop succeeds exactly when every consecutive pair
satisfies `perspectivePairOk`. -/
theorem checkPerspectiveEntries_ok_iff (l : List (PerspectiveEntry V)) :
    checkPerspectiveEntries l = .ok () ↔ l.Chain' perspectivePairOk := by
  induction l with
  | nil => simp [checkPerspectiveEntries]
  | cons a l ih =>
    cases l with
    | nil => simp [checkPerspectiveEntries]
    | cons b m =>
      rw [checkPerspectiveEntries, List.chain'_cons, ← ih, perspectivePairOk]
      split_ifs with h1 h2
      · simp [Nat.not_le.mpr h1]
      · simp [Nat.not_le.mpr h2]
      · simp [Nat.le_of_not_lt h1, Nat.le_of_not_lt h2]

/-- Claim C5 as amended: constructing a `Perspective` fails exactly when some
consecutive pair of entries has a decreasing `effectivity.start` or a
previous `effectivity.end` strictly greater than the next `effectivity.start`.
Two consecutive entries sharing a single boundary point
(`previous.end = next.start`) DO overlap as closed ranges, but the strict
comparison of the source accepts them; likewise only consecutive pairs are
compared. -/
theorem Perspective.init_sorted_iff [DecidableEq V] (s : TP)
    (l : List (PerspectiveEntry V)) :
    (Perspective.init s l).isOk = true ↔
      l.Chain' (fun p n => p.effectivity.start ≤ n.effectivity.start
        ∧ p.effectivity.endp ≤ n.effectivity.start) := by
  show (Perspective.init s l).isOk = true ↔ l.Chain' perspectivePairOk
  rw [← checkPerspectiveEntries_ok_iff]
  unfold Perspective.init
  cases hc : checkPerspectiveEntries l with
  | ok u => cases u; simp [Except.isOk, Except.toBool]
  | error e => simp [Except.isOk, Except.toBool]

/-- Claim C5 (failing half): the entries `[0,5] -> "x"` and `[5,9] -> "y"`
overlap (both contain the point 5), yet the constructor accepts them. -/
theorem Perspective.init_accepts_touching_ranges :
    Perspective.init 0 [⟨⟨0, 5⟩, "x"⟩, ⟨⟨5, 9⟩, "y"⟩]
        = .ok { settled_at := 0, _entries := [⟨⟨0, 5⟩, "x"⟩, ⟨⟨5, 9⟩, "y"⟩] }
    ∧ (⟨0, 5⟩ : TimeRange).containsB 5 = true
    ∧ (⟨5, 9⟩ : TimeRange).containsB 5 = true
    ∧ (⟨0, 5⟩ : TimeRange).overlap_withB ⟨5, 9⟩ = true :=
  ⟨rfl, rfl, rfl, rfl⟩

/-! ### C8 — `subtract_all` never steps past a sentinel -/

/-- A fold whose fallible step always succeeds is the successful fold of the
total step. -/
theorem foldlM_ok_of_step_ok {α β : Type} {f' : β → α → Except Err β}
    {f : β → α → β} (hstep : ∀ s a, f' s a = .ok (f s a)) :
    ∀ (l : List α) (b : β), l.foldlM f' b = .ok (l.foldl f b) := by
  intro l
  induction l with
  | nil => intro b; rfl
  | cons a l ih =>
    intro b
    rw [List.foldlM_cons, hstep, List.foldl_cons]
    exact ih (f b a)

/-- Each iteration of the instrumented sweep loop succeeds: the source
computes `prev` only under `not is_min` and `next` only under `not is_max`,
which are exactly the conditions under which the date arithmetic is safe. -/
theorem sweepStepE_eq_ok (others : List TimeRange)
    (st : Option TP × List TimeRange) (t : TP) :
    TimeRange.sweepStepE others st t = .ok (TimeRange.sweepStep others st t) := by
  obtain ⟨ir, results⟩ := st
  have hprev : t ≠ 0 → t.prev = .ok (t - 1) := fun h => by simp [TP.prev, h]
  have hnext : t ≠ TPmax → t.next = .ok (t + 1) := fun h => by simp [TP.next, h]
  cases ir with
  | some s =>
    by_cases h0 : t = 0
    · subst h0
      by_cases hc : (others.any fun o => o.containsB 1) = true
      · simp [TimeRange.sweepStepE, TimeRange.sweepStep, TP.is_min, TP.is_max,
          TPmax, TP.next, hc]
      · rw [Bool.not_eq_true] at hc
        simp [TimeRange.sweepStepE, TimeRange.sweepStep, TP.is_min, TP.is_max,
          TPmax, TP.next, hc]
    · by_cases hc : (others.any fun o => o.containsB (t - 1)) = true
      · simp [TimeRange.sweepStepE, TimeRange.sweepStep, TP.is_min, h0,
          hprev h0, hc]
      · rw [Bool.not_eq_true] at hc
        simp [TimeRange.sweepStepE, TimeRange.sweepStep, TP.is_min, h0,
          hprev h0, hc]
  | none =>
    by_cases hM : t = TPmax
    · subst hM
      rfl
    · by_cases hc : (others.any fun o => o.containsB (t + 1)) = true
      · simp [TimeRange.sweepStepE, TimeRange.sweepStep, TP.is_max, hM,
          hnext hM, hc]
      · rw [Bool.not_eq_true] at hc
        simp [TimeRange.sweepStepE, TimeRange.sweepStep, TP.is_max, hM,
          hnext hM, hc]

/-- Claim C8: `subtract_all` is total on every input — threading the fallible
one-second steps of the date arithmetic through the whole computation
(`subtract_allE`) always yields `.ok` of the total result, i.e. the loop
never evaluates `next` on the MAX sentinel nor `prev` on the MIN sentinel,
every step being guarded by `is_max`/`is_min`. -/
theorem TimeRange.subtract_all_total (self : TimeRange)
    (others : List TimeRange) :
    self.subtract_allE others = .ok (self.subtract_all others) := by
  simp only [TimeRange.subtract_allE, TimeRange.subtract_all]
  rw [foldlM_ok_of_step_ok (sweepStepE_eq_ok others)]
  rfl

/-! ### C1 — `fetch` returns the most-recently-settled containing entry -/

/-- Scanning a reversed filtered list for the first hit finds the LAST
element of the original list satisfying both predicates. -/
theorem or_some_eq_getD {α : Type} (o : Option α) (a : α) :
    o.or (some a) = some (o.getD a) := by cases o <;> rfl

theorem find?_filter_reverse {α : Type} (pc q : α → Bool) (l : List α) :
    (l.reverse.filter pc).find? q
      = (l.filter fun a => pc a && q a).getLast? := by
  induction l with
  | nil => rfl
  | cons a l ih =>
    rw [List.reverse_cons, List.filter_append, List.find?_append, ih,
      List.filter_cons, List.filter_cons]
    cases hpc : pc a
    · simp [hpc]
    · cases hq : q a
      · simp [hq, List.find?]
      · simp [hq, List.find?, List.getLast?_cons, or_some_eq_getD]

/-- Claim C1: for a well-formed history, `fetch at_ cutoff` returns the value
of the LAST candidate in log order — an entry settled at or before the
cutoff whose effectivity contains `at_` — failing with missing-value when
there is no candidate or when that winning candidate is a retraction; and
(second conjunct) that winning candidate is most recently settled: every
candidate's `settled_at` is at most the winner's. -/
theorem History.fetch_most_recently_settled (h : History T) (at_ cutoff : TP)
    (hwf : checkHistoryEntries h._entries = .ok ()) :
    (h.fetch at_ cutoff =
      match (fetchCandidates h at_ cutoff).getLast? with
      | some e => if e._is_forgotten then .error .missingValue else .ok e._value
      | none => .error .missingValue)
    ∧ ∀ e ∈ fetchCandidates h at_ cutoff,
        ∀ w ∈ (fetchCandidates h at_ cutoff).getLast?,
          e.settled_at ≤ w.settled_at := by
  have hfind : (h._entries_settled_at cutoff).find?
        (fun e => e.effectivity.containsB at_)
      = (fetchCandidates h at_ cutoff).getLast? := by
    rw [History._entries_settled_at, fetchCandidates, ← find?_filter_reverse]
  constructor
  · rw [History.fetch, hfind]
    cases (fetchCandidates h at_ cutoff).getLast? <;> rfl
  · intro e he w hw
    have hchain : h._entries.Chain' historyPairOk :=
      (checkHistoryEntries_ok_iff _).mp hwf
    have hchain' : h._entries.Chain' (fun a b => a.settled_at ≤ b.settled_at) :=
      hchain.imp fun a b hab => hab.1
    haveI : IsTrans (HistoryEntry T) (fun a b => a.settled_at ≤ b.settled_at) :=
      ⟨fun a b c h1 h2 => le_trans h1 h2⟩
    have hpw : (fetchCandidates h at_ cutoff).Pairwise
        (fun a b => a.settled_at ≤ b.settled_at) :=
      List.Pairwise.sublist (List.filter_sublist _)
        (List.chain'_iff_pairwise.mp hchain')
    have hl : (fetchCandidates h at_ cutoff).dropLast ++ [w]
        = fetchCandidates h at_ cutoff :=
      List.dropLast_append_getLast? w hw
    rw [← hl] at he hpw
    rcases List.mem_append.mp he with h1 | h1
    · exact (List.pairwise_append.mp hpw).2.2 e h1 w (List.mem_singleton.mpr rfl)
    · rw [List.mem_singleton.mp h1]

/-- Witness for C1 on the end-to-end scenario history at the instant
`scenarioT0` with cutoff 100: the well-formedness hypothesis holds by
computation, the winning candidate is the version-0 entry carrying "hey". -/
theorem History.fetch_most_recently_settled_witness :
    checkHistoryEntries scenarioHistory._entries = .ok ()
    ∧ ((scenarioHistory.fetch scenarioT0 100 =
        match (fetchCandidates scenarioHistory scenarioT0 100).getLast? with
        | some e => if e._is_forgotten then .error .missingValue else .ok e._value
        | none => .error .missingValue)
      ∧ ∀ e ∈ fetchCandidates scenarioHistory scenarioT0 100,
          ∀ w ∈ (fetchCandidates scenarioHistory scenarioT0 100).getLast?,
            e.settled_at ≤ w.settled_at) :=
  ⟨rfl, History.fetch_most_recently_settled scenarioHistory scenarioT0 100 rfl⟩

end Temporal
